import Mathlib

/-!
Verification development for the iolite library (src/iolite/__init__.py).

The library is a set of independent, stateless wrappers over path handling
and record-oriented file formats.  We shallowly embed each function the
claims touch:

* paths and directories become explicit state records (`DirState`);
* generator-based readers become batch functions returning a `GenResult`:
  the list of values yielded before termination, the warnings logged on
  suppressed failures, and the terminal error (if the generator raised);
* the Python `json` codec (`json.loads` / `json.dumps`) is embedded as an
  executable parser/serializer pair over a `Json` value model (integers
  stand in for Python numbers; floats are outside the model);
* CSV rows are lists of strings, Python `dict`s are association lists in
  insertion order (the representation invariant: no duplicate keys).
-/

/-- Error classes of the exceptions the source can raise.  `notFound`
abstracts FileNotFoundError, `wrongKind` IsADirectoryError and
NotADirectoryError, `decodeError` json.JSONDecodeError, `osError` OSError
(and FileExistsError), the rest their Python namesakes. -/
inductive Err where
  | notFound
  | wrongKind
  | runtimeError
  | typeError
  | valueError
  | decodeError
  | keyError
  | osError
deriving DecidableEq, Repr

/-- Warnings emitted by `logging.warning` on suppressed failures.  Each
constructor abstracts one warning site of the source; payloads keep the
data interpolated into the message that matters behaviourally. -/
inductive Warn where
  | configNoHeader
  | configToDict
  | headerNotIterable
  | mismatch (num : Nat)
  | decodeFail (num : Nat)
  | encodeFail (num : Nat)
  | loadFail
  | rmFail (name : String)
  | missingKey (num : Nat)
  | unknownKeys (num : Nat)
  | notMapping (num : Nat)
  | notIterable (num : Nat)
  | emptyStructs
deriving DecidableEq, Repr

/-- Result of running a Python generator to completion (or to the raise
that ends it): the values yielded so far in order, the warnings logged,
and the exception that terminated it, if any. -/
structure GenResult (α : Type) where
  out : List α
  warns : List Warn
  err : Option Err
deriving DecidableEq, Repr

/-- Yield one more value in front of the rest of a generator run. -/
def GenResult.push {α : Type} (x : α) (r : GenResult α) : GenResult α :=
  ⟨x :: r.out, r.warns, r.err⟩

/-- Log a warning (suppressed when `silent`) before the rest of the run. -/
def GenResult.warn {α : Type} (silent : Bool) (w : Warn) (r : GenResult α) :
    GenResult α :=
  ⟨r.out, if silent then r.warns else w :: r.warns, r.err⟩

/-- A raise: nothing more is yielded. -/
def GenResult.raise {α : Type} (e : Err) : GenResult α := ⟨[], [], some e⟩

/-- Normal exhaustion of the generator. -/
def GenResult.done {α : Type} : GenResult α := ⟨[], [], none⟩

/-! ## Decimal printing of integers (model of Python `str(int)` and the
`json` module's integer serialization). -/

/-- The ASCII digit character for a digit value below ten. -/
def digitChar (d : Nat) : Char := Char.ofNat (48 + d)

/-- Decimal digits of a natural number, most significant first,
with explicit fuel so that the definition is structural (the kernel can
evaluate it); `fuel > n` always suffices. -/
def natCharsF : Nat → Nat → List Char
  | 0, _ => []
  | fuel + 1, n =>
    if n < 10 then [digitChar n]
    else natCharsF fuel (n / 10) ++ [digitChar (n % 10)]

/-- Decimal digits of a natural number, most significant first. -/
def natChars (n : Nat) : List Char := natCharsF (n + 1) n

/-- Decimal rendering of an integer, with a leading minus sign when
negative — the model of Python `str`/`repr` on `int`. -/
def intChars (i : Int) : List Char :=
  if i < 0 then '-' :: natChars i.natAbs else natChars i.natAbs

/-- `str(int)` as a `String`. -/
def intStr (i : Int) : String := String.mk (intChars i)

/-- Numeric value of an ASCII digit character. -/
def dval (c : Char) : Nat := c.toNat - 48

theorem digitChar_isDigit : ∀ d, d < 10 →
    (digitChar d).isDigit = true ∧ dval (digitChar d) = d := by decide

theorem digitChar_ne_zero : ∀ d, 1 ≤ d → d < 10 → digitChar d ≠ '0' := by
  decide

theorem natCharsF_fuel (n : Nat) : ∀ f, n < f → natCharsF f n = natChars n := by
  induction n using Nat.strong_induction_on with
  | _ n ih =>
    intro f hf
    match f, hf with
    | f' + 1, _ =>
      show natCharsF (f' + 1) n = natCharsF (n + 1) n
      by_cases h : n < 10
      · simp [natCharsF, h]
      · have hd : n / 10 < n := Nat.div_lt_self (by omega) (by omega)
        simp only [natCharsF, if_neg h]
        rw [ih (n / 10) hd f' (by omega), ih (n / 10) hd n (by omega)]

/-- The recursion rule of `natChars`, fuel eliminated. -/
theorem natChars_eq (n : Nat) :
    natChars n = if n < 10 then [digitChar n]
      else natChars (n / 10) ++ [digitChar (n % 10)] := by
  show natCharsF (n + 1) n = _
  by_cases h : n < 10
  · simp [natCharsF, h]
  · simp only [natCharsF, if_neg h]
    rw [natCharsF_fuel (n / 10) n (by omega : n / 10 < n)]

theorem natChars_ne_nil (n : Nat) : natChars n ≠ [] := by
  rw [natChars_eq]
  split
  · simp
  · simp

theorem natChars_all_digits (n : Nat) :
    ∀ c, c ∈ natChars n → c.isDigit = true := by
  induction n using Nat.strong_induction_on with
  | _ n ih =>
    rw [natChars_eq]
    split
    · next h =>
      intro c hc
      simp only [List.mem_singleton] at hc
      subst hc
      exact (digitChar_isDigit n h).1
    · next h =>
      intro c hc
      rcases List.mem_append.mp hc with h1 | h1
      · exact ih (n / 10) (Nat.div_lt_self (by omega) (by omega)) c h1
      · simp only [List.mem_singleton] at h1
        subst h1
        exact (digitChar_isDigit (n % 10) (Nat.mod_lt _ (by omega))).1

theorem natChars_foldl (n : Nat) : ∀ acc : Nat,
    (natChars n).foldl (fun a c => 10 * a + dval c) acc
      = acc * 10 ^ (natChars n).length + n := by
  induction n using Nat.strong_induction_on with
  | _ n ih =>
    intro acc
    rw [natChars_eq]
    split
    · next h =>
      simp [List.foldl, (digitChar_isDigit n h).2]
      ring
    · next h =>
      rw [List.foldl_append]
      rw [ih (n / 10) (Nat.div_lt_self (by omega) (by omega)) acc]
      simp [List.foldl, (digitChar_isDigit (n % 10) (Nat.mod_lt _ (by omega))).2]
      rw [pow_succ, ← mul_assoc]
      omega

theorem natChars_head_ne_zero (n : Nat) (hn : 1 ≤ n) :
    ∀ c cs, natChars n = c :: cs → c ≠ '0' := by
  induction n using Nat.strong_induction_on with
  | _ n ih =>
    intro c cs
    rw [natChars_eq]
    split
    · next h =>
      intro heq
      simp only [List.cons.injEq] at heq
      rw [← heq.1]
      exact digitChar_ne_zero n hn h
    · next h =>
      intro heq
      have hne := natChars_ne_nil (n / 10)
      rcases hq : natChars (n / 10) with _ | ⟨c0, cs0⟩
      · exact absurd hq hne
      · rw [hq] at heq
        simp only [List.cons_append, List.cons.injEq] at heq
        rw [← heq.1]
        exact ih (n / 10) (Nat.div_lt_self (by omega) (by omega))
          (by omega : 1 ≤ n / 10) c0 cs0 hq

/-! ## JSON value model

Model of the Python values `json.loads` produces and `json.dumps`
consumes: `null`, booleans, integers (floats are outside the model),
strings, lists, and dicts in insertion order.  A mutual inductive keeps
structural recursion and induction straightforward. -/

mutual
inductive Json where
  | null
  | bool (b : Bool)
  | num (i : Int)
  | str (s : String)
  | arr (xs : JsonList)
  | obj (kvs : JsonObj)
inductive JsonList where
  | nil
  | cons (v : Json) (tl : JsonList)
inductive JsonObj where
  | nil
  | cons (k : String) (v : Json) (tl : JsonObj)
end

/-! Structure size, used as fuel accounting for the parser. -/
mutual
def sizeJ : Json → Nat
  | .arr xs => 1 + sizeL xs
  | .obj kvs => 1 + sizeO kvs
  | _ => 1
def sizeL : JsonList → Nat
  | .nil => 0
  | .cons v tl => 1 + sizeJ v + sizeL tl
def sizeO : JsonObj → Nat
  | .nil => 0
  | .cons _ v tl => 1 + sizeJ v + sizeO tl
end

/-- Does the object have an entry with the given key? -/
def oHasKey : JsonObj → String → Bool
  | .nil, _ => false
  | .cons k0 _ tl, k => k0 == k || oHasKey tl k

/-- Keys pairwise distinct — the representation invariant of a Python
dict rendered as an insertion-ordered association list. -/
def oKeysNodup : JsonObj → Bool
  | .nil => true
  | .cons k _ tl => !oHasKey tl k && oKeysNodup tl

/-! Well-formedness: every object in the value has pairwise-distinct
keys (true of every value produced from actual Python dicts). -/
mutual
def wfJ : Json → Bool
  | .null => true
  | .bool _ => true
  | .num _ => true
  | .str _ => true
  | .arr xs => wfL xs
  | .obj kvs => oKeysNodup kvs && wfO kvs
def wfL : JsonList → Bool
  | .nil => true
  | .cons v tl => wfJ v && wfL tl
def wfO : JsonObj → Bool
  | .nil => true
  | .cons _ v tl => wfJ v && wfO tl
end

/-- Python truthiness test `not struct` on a decoded value: `None`,
`False`, `0`, `''`, `[]` and `{}` are falsy. -/
def pyFalsy : Json → Bool
  | .null => true
  | .bool b => !b
  | .num i => i == 0
  | .str s => s == ""
  | .arr .nil => true
  | .arr (.cons _ _) => false
  | .obj .nil => true
  | .obj (.cons _ _ _) => false

/-- Overwrite the value stored at a key (no-op when absent). -/
def oSet : JsonObj → String → Json → JsonObj
  | .nil, _, _ => .nil
  | .cons k0 v0 tl, k, v =>
    if k0 == k then .cons k0 v (oSet tl k v) else .cons k0 v0 (oSet tl k v)

/-- Append two objects. -/
def oAppend : JsonObj → JsonObj → JsonObj
  | .nil, d => d
  | .cons k v tl, d => .cons k v (oAppend tl d)

/-- Python `d[k] = v`: update in place when the key is present,
append at the end otherwise. -/
def oInsert (d : JsonObj) (k : String) (v : Json) : JsonObj :=
  if oHasKey d k then oSet d k v else oAppend d (.cons k v .nil)

/-- Fold a list of parsed members into a dict, left to right. -/
def oFoldInsert (acc : JsonObj) : JsonObj → JsonObj
  | .nil => acc
  | .cons k v tl => oFoldInsert (oInsert acc k v) tl

/-- `dict(pairs)` on the members parsed from a JSON object: insertion
order of first occurrence, last value for a repeated key wins. -/
def pyDictJson (kvs : JsonObj) : JsonObj := oFoldInsert .nil kvs

/-! ## Model of `json.dumps` (default separators, optional ASCII
escaping) -/

/-- Lower-case hex digit character for a value below sixteen. -/
def hexDigitChar (d : Nat) : Char :=
  if d < 10 then digitChar d else Char.ofNat (87 + d)

/-- Four-digit hex rendering of a code unit below 0x10000. -/
def hex4 (n : Nat) : List Char :=
  [hexDigitChar (n / 4096 % 16), hexDigitChar (n / 256 % 16),
   hexDigitChar (n / 16 % 16), hexDigitChar (n % 16)]

/-- `\uXXXX` escape of a code point, as a surrogate pair when it is
beyond the basic multilingual plane. -/
def uEsc (n : Nat) : List Char :=
  if n < 65536 then '\\' :: 'u' :: hex4 n
  else ('\\' :: 'u' :: hex4 (55296 + (n - 65536) / 1024)) ++
       ('\\' :: 'u' :: hex4 (56320 + (n - 65536) % 1024))

/-- Escape of one character in a JSON string literal: quote, backslash
and control characters always escape (short forms for `\b\t\n\f\r`);
with `ensure_ascii` every character beyond `~` (0x7e) escapes too. -/
def escChar (ea : Bool) (c : Char) : List Char :=
  if c = '"' then ['\\', '"']
  else if c = '\\' then ['\\', '\\']
  else if c = '\x08' then ['\\', 'b']
  else if c = '\t' then ['\\', 't']
  else if c = '\n' then ['\\', 'n']
  else if c = '\x0c' then ['\\', 'f']
  else if c = '\r' then ['\\', 'r']
  else if c.toNat < 32 then '\\' :: 'u' :: hex4 c.toNat
  else if ea && decide (126 < c.toNat) then uEsc c.toNat
  else [c]

/-- Escape every character in sequence. -/
def escList (ea : Bool) : List Char → List Char
  | [] => []
  | c :: cs => escChar ea c ++ escList ea cs

/-- A complete JSON string literal for `s`, quotes included. -/
def escString (ea : Bool) (s : String) : List Char :=
  '"' :: (escList ea s.data ++ ['"'])

/-! Serializer, with Python's default separators: elements joined by
a comma and space, keys and values by a colon and space. -/
mutual
def dumpsJ (ea : Bool) : Json → List Char
  | .null => "null".data
  | .bool true => "true".data
  | .bool false => "false".data
  | .num i => intChars i
  | .str s => escString ea s
  | .arr .nil => ['[', ']']
  | .arr (.cons v tl) => '[' :: (dumpsJ ea v ++ dumpsArrTail ea tl)
  | .obj .nil => ['\x7b', '\x7d']
  | .obj (.cons k v tl) =>
    '\x7b' :: (escString ea k ++ ':' :: ' ' :: (dumpsJ ea v ++ dumpsObjTail ea tl))
def dumpsArrTail (ea : Bool) : JsonList → List Char
  | .nil => [']']
  | .cons v tl => ',' :: ' ' :: (dumpsJ ea v ++ dumpsArrTail ea tl)
def dumpsObjTail (ea : Bool) : JsonObj → List Char
  | .nil => ['\x7d']
  | .cons k v tl =>
    ',' :: ' ' :: (escString ea k ++ ':' :: ' ' :: (dumpsJ ea v ++ dumpsObjTail ea tl))
end

/-- `json.dumps(v, ensure_ascii=ea)` as a `String`. -/
def jsonDumps (ea : Bool) (v : Json) : String := String.mk (dumpsJ ea v)

/-! ## Model of `json.loads`

A fuelled recursive-descent parser following the grammar the Python
decoder accepts on the fragment without floats: whitespace is space,
tab, newline and carriage return; numbers are integers with no leading
zeros; strings accept raw characters from 0x20 on, short escapes and
`\uXXXX` (surrogate pairs combined; lone surrogates are not
representable as Lean characters and are rejected); objects are built
with `dict` semantics (last value for a repeated key wins). -/

/-- JSON whitespace. -/
def isJsonWs (c : Char) : Bool := c = ' ' || c = '\t' || c = '\n' || c = '\r'

/-- Skip leading whitespace. -/
def skipWs (s : List Char) : List Char := s.dropWhile isJsonWs

/-- Value of a hex digit character, either case. -/
def hexVal (c : Char) : Option Nat :=
  if c.isDigit then some (c.toNat - 48)
  else if 97 ≤ c.toNat ∧ c.toNat ≤ 102 then some (c.toNat - 87)
  else if 65 ≤ c.toNat ∧ c.toNat ≤ 70 then some (c.toNat - 55)
  else none

/-- Value of four hex digit characters. -/
def hexVal4 (a b c d : Char) : Option Nat :=
  match hexVal a, hexVal b, hexVal c, hexVal d with
  | some x, some y, some z, some w => some (4096 * x + 256 * y + 16 * z + w)
  | _, _, _, _ => none

/-- Decoded character of a short escape after a backslash. -/
def escShortInv (e : Char) : Option Char :=
  if e = '"' then some '"'
  else if e = '\\' then some '\\'
  else if e = '/' then some '/'
  else if e = 'b' then some '\x08'
  else if e = 'f' then some '\x0c'
  else if e = 'n' then some '\n'
  else if e = 'r' then some '\r'
  else if e = 't' then some '\t'
  else none

/-- Parse the body of a string literal (the opening quote already
consumed): the decoded characters and the input after the closing
quote.  Fuel bounds the recursion (one unit per decoded character or
closing quote) so that the definition is structural; one more than the
input length always suffices. -/
def parseStrF : Nat → List Char → Option (List Char × List Char)
  | 0, _ => none
  | fuel + 1, input =>
    match input with
    | [] => none
    | c :: rest =>
      if c = '"' then some ([], rest)
      else if c = '\\' then
        match rest with
        | [] => none
        | e :: rest2 =>
          if e = 'u' then
            match rest2 with
            | a :: b :: c2 :: d :: rest3 =>
              match hexVal4 a b c2 d with
              | none => none
              | some n =>
                if 55296 ≤ n ∧ n < 56320 then
                  match rest3 with
                  | e2 :: u2 :: a2 :: b2 :: c3 :: d2 :: rest4 =>
                    if e2 = '\\' ∧ u2 = 'u' then
                      match hexVal4 a2 b2 c3 d2 with
                      | none => none
                      | some n2 =>
                        if 56320 ≤ n2 ∧ n2 < 57344 then
                          match parseStrF fuel rest4 with
                          | some (cs, r) =>
                            some (Char.ofNat (65536 + (n - 55296) * 1024 + (n2 - 56320)) :: cs, r)
                          | none => none
                        else none
                    else none
                  | _ => none
                else if 56320 ≤ n ∧ n < 57344 then none
                else
                  match parseStrF fuel rest3 with
                  | some (cs, r) => some (Char.ofNat n :: cs, r)
                  | none => none
            | _ => none
          else
            match escShortInv e with
            | none => none
            | some c2 =>
              match parseStrF fuel rest2 with
              | some (cs, r) => some (c2 :: cs, r)
              | none => none
      else if c.toNat < 32 then none
      else
        match parseStrF fuel rest with
        | some (cs, r) => some (c :: cs, r)
        | none => none

/-- Parse a string-literal body; the fuel is adequate for any input. -/
def parseStr (input : List Char) : Option (List Char × List Char) :=
  parseStrF (input.length + 1) input

/-- Parse an unsigned integer: a lone `0`, or a nonzero digit followed
by more digits (leading zeros rejected, as in the Python decoder). -/
def parseUNum : List Char → Option (Nat × List Char)
  | [] => none
  | c :: rest =>
    if c = '0' then some (0, rest)
    else if c.isDigit then
      some ((rest.takeWhile Char.isDigit).foldl (fun a d => 10 * a + dval d) (dval c),
            rest.dropWhile Char.isDigit)
    else none

/-- Parse an optionally signed integer. -/
def parseInt : List Char → Option (Int × List Char)
  | [] => none
  | c :: rest =>
    if c = '-' then
      match parseUNum rest with
      | some (n, r) => some (-(n : Int), r)
      | none => none
    else
      match parseUNum (c :: rest) with
      | some (n, r) => some ((n : Int), r)
      | none => none

/-! Parse one JSON value (`parseVal`), the elements of a non-empty
array from the first element on (`parseElems`), and the members of a
non-empty object from the first key on (`parseMembers`).  Fuel bounds
the recursion; any run that would exceed it fails. -/
mutual
def parseVal : Nat → List Char → Option (Json × List Char)
  | 0, _ => none
  | _ + 1, [] => none
  | fuel + 1, c :: rest =>
      if c = '\x7b' then
        let s2 := skipWs rest
        if s2.head? = some '\x7d' then some (.obj .nil, s2.tail)
        else
          match parseMembers fuel s2 with
          | some (kvs, r) => some (.obj (pyDictJson kvs), r)
          | none => none
      else if c = '[' then
        let s2 := skipWs rest
        if s2.head? = some ']' then some (.arr .nil, s2.tail)
        else
          match parseElems fuel s2 with
          | some (xs, r) => some (.arr xs, r)
          | none => none
      else if c = '"' then
        match parseStr rest with
        | some (cs, r) => some (.str (String.mk cs), r)
        | none => none
      else if c = 't' then
        match rest with
        | 'r' :: 'u' :: 'e' :: r => some (.bool true, r)
        | _ => none
      else if c = 'f' then
        match rest with
        | 'a' :: 'l' :: 's' :: 'e' :: r => some (.bool false, r)
        | _ => none
      else if c = 'n' then
        match rest with
        | 'u' :: 'l' :: 'l' :: r => some (.null, r)
        | _ => none
      else if c = '-' || c.isDigit then
        match parseInt (c :: rest) with
        | some (i, r) => some (.num i, r)
        | none => none
      else none
def parseElems : Nat → List Char → Option (JsonList × List Char)
  | 0, _ => none
  | fuel + 1, input =>
    match parseVal fuel input with
    | none => none
    | some (v, r) =>
      match skipWs r with
      | ',' :: r2 =>
        match parseElems fuel (skipWs r2) with
        | some (tl, r3) => some (JsonList.cons v tl, r3)
        | none => none
      | ']' :: r2 => some (JsonList.cons v .nil, r2)
      | _ => none
def parseMembers : Nat → List Char → Option (JsonObj × List Char)
  | 0, _ => none
  | _ + 1, [] => none
  | fuel + 1, c :: r0 =>
    if c = '"' then
      match parseStr r0 with
      | none => none
      | some (kcs, r1) =>
        match skipWs r1 with
        | ':' :: r2 =>
          match parseVal fuel (skipWs r2) with
          | none => none
          | some (v, r3) =>
            match skipWs r3 with
            | ',' :: r4 =>
              match parseMembers fuel (skipWs r4) with
              | some (tl, r5) => some (JsonObj.cons (String.mk kcs) v tl, r5)
              | none => none
            | '\x7d' :: r4 => some (JsonObj.cons (String.mk kcs) v .nil, r4)
            | _ => none
        | _ => none
    else none
end

/-- `json.loads`: parse one document, then require only whitespace
to remain (the decoder's extra-data check). -/
def jsonLoads (s : String) : Option Json :=
  match parseVal (s.length + 1) (skipWs s.data) with
  | some (v, rest) => if skipWs rest = [] then some v else none
  | none => none

/-! ## Path resolution (`folder`, `file`)

The filesystem state a single call can observe: whether the path
exists, whether it names a directory, and — for `folder` with `reset` —
the directory's children, each with the outcome its removal would have
(`removeFails` abstracts the OSError a removal attempt raises).
`expandvars` and the `Path` constructor are value-preserving on the
paths modelled here, so the path travels through unchanged. -/

structure Child where
  name : String
  isDir : Bool
  removeFails : Bool
deriving DecidableEq, Repr

structure DirState where
  ex : Bool
  isDir : Bool
  children : List Child
deriving DecidableEq, Repr

/-- The reset loop over `path.iterdir()`: a directory child is removed
with `shutil.rmtree` inside `try/except OSError` — on failure a warning
is logged and the child survives; a file child is removed with
`child.unlink()`, which is not guarded, so its failure raises. -/
def resetChildren : List Child → Except Err (List Child × List Warn)
  | [] => .ok ([], [])
  | c :: rest =>
    if c.isDir then
      if c.removeFails then
        match resetChildren rest with
        | .ok (kept, ws) => .ok (c :: kept, .rmFail c.name :: ws)
        | .error e => .error e
      else resetChildren rest
    else
      if c.removeFails then .error .osError
      else resetChildren rest

/-- `folder(raw_path, exists=exq, reset=reset, touch=touch)`.  Returns
the path (unchanged), the resulting directory state and the warnings
logged, or the exception raised. -/
def folder (p : String) (st : DirState) (exq reset touch : Bool) :
    Except Err (String × DirState × List Warn) :=
  if exq ∧ st.ex = false then .error .notFound
  else if exq ∧ st.isDir = false then .error .wrongKind
  else
    let afterReset : Except Err (DirState × List Warn) :=
      if reset then
        if st.ex then
          if st.isDir = false then .error .wrongKind
          else
            match resetChildren st.children with
            | .ok (kept, ws) => .ok (⟨true, true, kept⟩, ws)
            | .error e => .error e
        else .ok (⟨true, true, []⟩, [])
      else .ok (st, [])
    match afterReset with
    | .error e => .error e
    | .ok (st1, ws) =>
      if touch then
        if st1.ex ∧ st1.isDir = false then .error .osError
        else .ok (p, ⟨true, true, st1.children⟩, ws)
      else .ok (p, st1, ws)

/-- `file(raw_path, exists=exq)`: validate and return the path. -/
def filePath (p : String) (fexists isFile exq : Bool) : Except Err String :=
  if exq ∧ fexists = false then .error .notFound
  else if exq ∧ isFile = false then .error .wrongKind
  else .ok p

/-! ## Line-oriented readers and writers

A text file is modelled as the list of lines Python's line iteration
produces: every line keeps its trailing newline.  Generator-based
readers produce a `GenResult`. -/

/-- Python `str.strip()` on the whitespace the modelled lines contain
(ASCII whitespace). -/
def pyStrip (s : String) : String :=
  String.mk ((s.data.dropWhile Char.isWhitespace).reverse.dropWhile Char.isWhitespace |>.reverse)

/-- The per-line body of `read_text_lines`: optional strip, optional
skip of (post-strip) empty lines. -/
def textLinesBody (strip skip_empty : Bool) (lines : List String) : List String :=
  match lines with
  | [] => []
  | text :: rest =>
    let text1 := if strip then pyStrip text else text
    if skip_empty ∧ text1 = "" then textLinesBody strip skip_empty rest
    else text1 :: textLinesBody strip skip_empty rest

/-- `read_text_lines`: resolve the path with `exists=True`, then lazily
yield each line, optionally stripped, optionally skipping empties. -/
def read_text_lines (p : String) (fexists isFile strip skip_empty : Bool)
    (lines : List String) : GenResult String :=
  match filePath p fexists isFile true with
  | .error e => GenResult.raise e
  | .ok _ => ⟨textLinesBody strip skip_empty lines, [], none⟩

/-- `write_text_lines`: resolve the path (no existence requirement),
then write each text followed by a newline, with the same
strip/skip_empty options.  The result is the list of texts written
(each then followed by one newline in the file). -/
def write_text_lines (strip skip_empty : Bool) (texts : List String) : List String :=
  textLinesBody strip skip_empty texts

/-- The per-line loop of `read_json_lines`: decode each line; on
failure raise DecodeError unless `ignore_error`, logging the 0-based
line number unless `silent`; on success drop falsy values when
`skip_empty`. -/
def jlLoop (skip_empty ignore_error silent : Bool) (num : Nat) :
    List String → GenResult Json
  | [] => GenResult.done
  | text :: rest =>
    match jsonLoads text with
    | some v =>
      if skip_empty ∧ pyFalsy v = true then jlLoop skip_empty ignore_error silent (num + 1) rest
      else GenResult.push v (jlLoop skip_empty ignore_error silent (num + 1) rest)
    | none =>
      if ignore_error = false then GenResult.raise .decodeError
      else GenResult.warn silent (.decodeFail num) (jlLoop skip_empty ignore_error silent (num + 1) rest)

/-- `read_json_lines`: enumerate `read_text_lines` (strip off) and
decode each line. -/
def read_json_lines (p : String) (fexists isFile skip_empty ignore_error silent : Bool)
    (lines : List String) : GenResult Json :=
  let r := read_text_lines p fexists isFile false false lines
  match r.err with
  | some e => GenResult.raise e
  | none => jlLoop skip_empty ignore_error silent 0 r.out

/-- `_encode_json_lines`: encode each record to one line of text,
dropping falsy records when `skip_empty`.  On the modelled values
`json.dumps` always succeeds, so the encode-failure branch of the
source is unreachable here and the run never raises or warns. -/
def encode_json_lines (skip_empty ensure_ascii : Bool) (structs : List Json) : List String :=
  match structs with
  | [] => []
  | s :: rest =>
    if skip_empty ∧ pyFalsy s = true then encode_json_lines skip_empty ensure_ascii rest
    else jsonDumps ensure_ascii s :: encode_json_lines skip_empty ensure_ascii rest

/-- `write_json_lines`: encode then write as text lines (strip and
skip_empty are off at the text layer).  The result is the list of
texts written to the file, one line each. -/
def write_json_lines (skip_empty ensure_ascii : Bool) (structs : List Json) : List String :=
  write_text_lines false false (encode_json_lines skip_empty ensure_ascii structs)

/-- `read_json`: resolve with `exists=True`, parse the whole file; on
decode failure raise DecodeError unless `ignore_error`, then log unless
`silent` and return an empty dict as the fallback value. -/
def read_json (p : String) (fexists isFile ignore_error silent : Bool)
    (content : String) : Except Err (Json × List Warn) :=
  match filePath p fexists isFile true with
  | .error e => .error e
  | .ok _ =>
    match jsonLoads content with
    | some v => .ok (v, [])
    | none =>
      if ignore_error = false then .error .decodeError
      else .ok (.obj .nil, if silent then [] else [.loadFail])

/-! ## CSV reader (`read_csv_lines`)

`csv.reader` output is modelled as the list of rows, each row a list of
string fields.  `to_dict` zips a row with the header into a Python
dict (insertion order of first occurrence, last value wins for a
repeated column name). -/

/-- A yielded CSV record: the raw field list, or the dict built from
header and fields when `to_dict`. -/
inductive CsvRecord where
  | fields (row : List String)
  | dict (kvs : List (String × String))
deriving DecidableEq, Repr

/-- Insert one key into a string-valued Python dict: update in place
when present, append otherwise. -/
def sDictInsert (d : List (String × String)) (k v : String) :
    List (String × String) :=
  if d.any (fun p => p.1 == k) then
    d.map (fun p => if p.1 == k then (p.1, v) else p)
  else d ++ [(k, v)]

/-- `dict(zip(header, row))`. -/
def pyDictStr (header row : List String) : List (String × String) :=
  (List.zip header row).foldl (fun d kv => sDictInsert d kv.1 kv.2) []

/-- The row loop of `read_csv_lines` after the header has been dealt
with: when `match_header`, a row whose field count differs from the
header's raises ValueError unless `ignore_error` (then it is logged
unless `silent` and skipped); a surviving row is zipped into a dict
when `to_dict`, else yielded raw. -/
def csvLoop (match_header to_dict ignore_error silent : Bool)
    (header : List String) (num : Nat) : List (List String) → GenResult CsvRecord
  | [] => GenResult.done
  | row :: rest =>
    if match_header ∧ header.length ≠ row.length then
      if ignore_error = false then GenResult.raise .valueError
      else GenResult.warn silent (.mismatch num)
        (csvLoop match_header to_dict ignore_error silent header (num + 1) rest)
    else
      GenResult.push
        (if match_header ∧ to_dict then .dict (pyDictStr header row) else .fields row)
        (csvLoop match_header to_dict ignore_error silent header (num + 1) rest)

/-- `read_csv_lines`: resolve the path with `exists=True`; reject the
configurations `match_header` without `header_exists` and `to_dict`
without `match_header` (RuntimeError, or an empty sequence with a
warning under `ignore_error`); capture the first row as header when
`header_exists`, excluding it from the output only when `skip_header`;
then run the row loop.  When the header row itself reaches the
match-header check it compares its length against itself and always
passes, so the model yields it directly.  (The header-not-iterable
branch of the source cannot fire here: `csv.reader` rows are always
lists.) -/
def read_csv_lines (p : String)
    (fexists isFile header_exists skip_header match_header to_dict ignore_error silent : Bool)
    (rows : List (List String)) : GenResult CsvRecord :=
  match filePath p fexists isFile true with
  | .error e => GenResult.raise e
  | .ok _ =>
    if header_exists = false ∧ match_header = true then
      if ignore_error = false then GenResult.raise .runtimeError
      else GenResult.warn silent .configNoHeader GenResult.done
    else if to_dict = true ∧ match_header = false then
      if ignore_error = false then GenResult.raise .runtimeError
      else GenResult.warn silent .configToDict GenResult.done
    else
      match rows with
      | [] => GenResult.done
      | first :: rest =>
        if header_exists then
          if skip_header then
            csvLoop match_header to_dict ignore_error silent first 1 rest
          else
            GenResult.push
              (if match_header ∧ to_dict then .dict (pyDictStr first first)
               else .fields first)
              (csvLoop match_header to_dict ignore_error silent first 1 rest)
        else
          csvLoop match_header to_dict ignore_error silent [] 0 (first :: rest)

/-! ## CSV writer (`write_csv_lines`)

Records are Python values: a mapping (association list in insertion
order, integer values), a sequence of integers, or a non-iterable
scalar.  `csv.writer` renders an integer cell with `str` and a `None`
cell as the empty field. -/

/-- A record passed to the CSV writer. -/
inductive PyRec where
  | map (kvs : List (String × Int))
  | seq (cells : List Int)
  | scalar (i : Int)
deriving DecidableEq, Repr

/-- `isinstance(struct, abc.Mapping)`. -/
def PyRec.isMap : PyRec → Bool
  | .map _ => true
  | _ => false

/-- `isinstance(struct, abc.Iterable)`. -/
def PyRec.isIter : PyRec → Bool
  | .map _ => true
  | .seq _ => true
  | .scalar _ => false

/-- `struct.get(key)`: the first value stored under the key, `None`
when absent. -/
def lookupKV (kvs : List (String × Int)) (k : String) : Option Int :=
  (kvs.find? (fun p => p.1 == k)).map (fun p => p.2)

/-- How `csv.writer` renders one cell: `None` becomes the empty field,
an integer its decimal form. -/
def cellStr : Option Int → String
  | none => ""
  | some i => intStr i

/-- The keyed (`from_dict`) row loop: a non-mapping record raises
TypeError per policy (skipped on suppression); a record missing one of
the header keys raises KeyError per policy unless
`set_missing_key_to_none` substitutes `None`; with
`ignore_unknown_key=False` a record with keys outside the header raises
KeyError per policy; a surviving record is written in header key
order. -/
def wcsvDictLoop (set_missing ignore_unknown ignore_error silent : Bool)
    (keys : List String) (num : Nat) : List PyRec → GenResult (List String)
  | [] => GenResult.done
  | .map kvs :: rest =>
    if (set_missing = false) ∧ keys.any (fun k => (lookupKV kvs k).isNone) then
      if ignore_error = false then GenResult.raise .keyError
      else GenResult.warn silent (.missingKey num)
        (wcsvDictLoop set_missing ignore_unknown ignore_error silent keys (num + 1) rest)
    else
      if (ignore_unknown = false) ∧ kvs.any (fun p => !keys.contains p.1) then
        if ignore_error = false then GenResult.raise .keyError
        else GenResult.warn silent (.unknownKeys num)
          (wcsvDictLoop set_missing ignore_unknown ignore_error silent keys (num + 1) rest)
      else
        GenResult.push (keys.map (fun k => cellStr (lookupKV kvs k)))
          (wcsvDictLoop set_missing ignore_unknown ignore_error silent keys (num + 1) rest)
  | _ :: rest =>
    if ignore_error = false then GenResult.raise .typeError
    else GenResult.warn silent (.notMapping num)
      (wcsvDictLoop set_missing ignore_unknown ignore_error silent keys (num + 1) rest)

/-- The positional row loop: a non-iterable record raises ValueError
per policy (skipped on suppression); a mapping iterates as its keys; a
sequence writes its rendered cells. -/
def wcsvPosLoop (ignore_error silent : Bool) (num : Nat) :
    List PyRec → GenResult (List String)
  | [] => GenResult.done
  | .map kvs :: rest =>
    GenResult.push (kvs.map (fun p => p.1)) (wcsvPosLoop ignore_error silent (num + 1) rest)
  | .seq cells :: rest =>
    GenResult.push (cells.map intStr) (wcsvPosLoop ignore_error silent (num + 1) rest)
  | .scalar _ :: rest =>
    if ignore_error = false then GenResult.raise .valueError
    else GenResult.warn silent (.notIterable num) (wcsvPosLoop ignore_error silent (num + 1) rest)

/-- `write_csv_lines`: in keyed mode the first record is peeked to
derive the header (ValueError on an empty source, TypeError when it is
not a mapping, each per policy, writing nothing), the header row is
written, the first record is put back and the keyed loop runs;
otherwise the positional loop runs.  `out` is the list of rows
written. -/
def write_csv_lines (from_dict set_missing ignore_unknown ignore_error silent : Bool)
    (structs : List PyRec) : GenResult (List String) :=
  if from_dict then
    match structs with
    | [] =>
      if ignore_error = false then GenResult.raise .valueError
      else GenResult.warn silent .emptyStructs GenResult.done
    | first :: rest =>
      match first with
      | .map kvs =>
        let keys := kvs.map (fun p => p.1)
        GenResult.push keys
          (wcsvDictLoop set_missing ignore_unknown ignore_error silent keys 0 (.map kvs :: rest))
      | _ =>
        if ignore_error = false then GenResult.raise .typeError
        else GenResult.warn silent (.notMapping 0) GenResult.done
  else wcsvPosLoop ignore_error silent 0 structs

/-! ## Claims -/

/-- C3: reading the JSON-Lines text consisting of the lines
`{"a":1}`, `{}`, `badjson`, `[1,2]` with `skip_empty=True,
ignore_error=True, silent=True` yields exactly the mapping `{"a": 1}`
followed by the sequence `[1, 2]`: the empty mapping decodes but is
dropped by `skip_empty`, the undecodable line is skipped without
raising, and `silent` suppresses its warning. -/
theorem read_json_lines_scenario :
    read_json_lines "p" true true true true true
      ["\x7b\"a\":1\x7d\n", "\x7b\x7d\n", "badjson\n", "[1,2]\n"]
      = ⟨[Json.obj (JsonObj.cons "a" (Json.num 1) JsonObj.nil),
          Json.arr (JsonList.cons (Json.num 1) (JsonList.cons (Json.num 2) JsonList.nil))],
         [], none⟩ := rfl

/-- C4: on an existing file whose whole contents fail to parse as one
JSON document, `read_json` with `ignore_error=True` returns the empty
mapping as fallback (logging unless `silent`), and with
`ignore_error=False` propagates the decode error. -/
theorem read_json_fallback (p content : String) (sil : Bool)
    (hbad : jsonLoads content = none) :
    read_json p true true true sil content
        = .ok (Json.obj JsonObj.nil, if sil then [] else [Warn.loadFail])
      ∧ read_json p true true false sil content = .error Err.decodeError := by
  constructor <;> simp [read_json, filePath, hbad]

theorem read_json_fallback_witness :
    jsonLoads "badjson" = none
      ∧ (read_json "p" true true true false "badjson"
            = .ok (Json.obj JsonObj.nil, if false then [] else [Warn.loadFail])
          ∧ read_json "p" true true false false "badjson" = .error Err.decodeError) :=
  ⟨rfl, read_json_fallback "p" "badjson" false rfl⟩

/-- C5: each invalid CSV option combination — `match_header` without
`header_exists`, or `to_dict` without `match_header` — raises a
RuntimeError before any row is consumed when `ignore_error=False`, and
with `ignore_error=True` is suppressed (logged unless `silent`) with
the sequence terminating empty, for every input. -/
theorem read_csv_lines_config_errors (p : String) (rows : List (List String))
    (sh td he ig sil : Bool) :
    read_csv_lines p true true false sh true td ig sil rows
        = (if ig then ⟨[], if sil then [] else [Warn.configNoHeader], none⟩
           else GenResult.raise Err.runtimeError)
      ∧ read_csv_lines p true true he sh false true ig sil rows
        = (if ig then ⟨[], if sil then [] else [Warn.configToDict], none⟩
           else GenResult.raise Err.runtimeError) := by
  constructor <;>
    cases ig <;>
      simp [read_csv_lines, filePath, GenResult.raise, GenResult.warn, GenResult.done]

/-- C9: every reader resolves its path with `exists=True` before any
line or record is processed, so a missing file raises FileNotFoundError
regardless of `ignore_error` and `silent`. -/
theorem readers_require_existing_file (p content : String)
    (isF strip se ske ig sil he sh mh td : Bool)
    (lines : List String) (rows : List (List String)) :
    read_text_lines p false isF strip se lines = GenResult.raise Err.notFound
      ∧ read_json_lines p false isF ske ig sil lines = GenResult.raise Err.notFound
      ∧ read_csv_lines p false isF he sh mh td ig sil rows = GenResult.raise Err.notFound
      ∧ read_json p false isF ig sil content = .error Err.notFound := by
  refine ⟨?_, ?_, ?_, ?_⟩ <;>
    simp [read_text_lines, read_json_lines, read_csv_lines, read_json, filePath,
      GenResult.raise]

/-- C10: with `header_exists=True, skip_header=False, match_header=True`
the header row is the first yielded element — it passes the arity check
against itself, and under `to_dict=True` it appears as the dict zipping
each header field with itself. -/
theorem csv_header_first_yield (p : String) (h : List String)
    (rows : List (List String)) (td ig sil : Bool) :
    (read_csv_lines p true true true false true td ig sil (h :: rows)).out.head?
      = some (if td then CsvRecord.dict (pyDictStr h h) else CsvRecord.fields h) := by
  cases td <;> simp [read_csv_lines, filePath, GenResult.push]

/-- C7: keyed CSV write with `from_dict=True, set_missing_key_to_none=True`
on the records `[{"a": x, "b": y}, {"a": z}]` derives the header from
the first record's key order, writes the header row `a,b` first, then
the rows `x,y` and `z,` — the key missing from the second record
becomes `None`, rendered as an empty field, instead of failing. -/
theorem write_csv_keyed_scenario (x y z : Int) :
    write_csv_lines true true true false false
      [PyRec.map [("a", x), ("b", y)], PyRec.map [("a", z)]]
      = ⟨[["a", "b"], [intStr x, intStr y], [intStr z, ""]], [], none⟩ := by
  simp [write_csv_lines, wcsvDictLoop, lookupKV, cellStr, GenResult.push,
    GenResult.done, List.find?]

/-- C8: resolving with `exists=True` on a present path of the expected
kind returns the path unchanged (and, for `folder` without
`reset`/`touch`, leaves the directory untouched); on an absent path both
resolvers raise FileNotFoundError; on a present path of the wrong kind
`folder` raises NotADirectoryError and `file` IsADirectoryError, both
before any other action. -/
theorem resolve_exists_cases (p : String) (cs : List Child) (d r t : Bool) :
    folder p ⟨true, true, cs⟩ true false false = .ok (p, ⟨true, true, cs⟩, [])
      ∧ folder p ⟨false, d, cs⟩ true r t = .error Err.notFound
      ∧ folder p ⟨true, false, cs⟩ true r t = .error Err.wrongKind
      ∧ filePath p true true true = .ok p
      ∧ filePath p false d true = .error Err.notFound
      ∧ filePath p true false true = .error Err.wrongKind := by
  refine ⟨?_, ?_, ?_, ?_, ?_, ?_⟩ <;> simp [folder, filePath]

/-- C1 counterexample: with `reset=True` on an existing directory whose
single child is a file whose removal fails, `folder` raises the OSError
instead of logging and continuing — `child.unlink()` is outside the
`try/except` that guards only the subdirectory branch. -/
theorem folder_reset_file_failure_raises :
    folder "p" ⟨true, true, [⟨"f", false, true⟩]⟩ false true false
      = .error Err.osError := rfl

theorem resetChildren_ok (cs : List Child)
    (hf : ∀ c ∈ cs, c.isDir = false → c.removeFails = false) :
    resetChildren cs
      = .ok (cs.filter (fun c => c.isDir && c.removeFails),
             (cs.filter (fun c => c.isDir && c.removeFails)).map
               (fun c => Warn.rmFail c.name)) := by
  induction cs with
  | nil => rfl
  | cons c rest ih =>
    have hr := ih (fun c' h' _ => hf c' (List.mem_cons_of_mem _ h') (by assumption))
    by_cases hd : c.isDir
    · by_cases hrf : c.removeFails
      · simp [resetChildren, hd, hrf, hr, List.filter_cons]
      · simp [resetChildren, hd, hrf, hr, List.filter_cons]
    · have hnf := hf c (List.mem_cons_self _ _) (by simpa using hd)
      simp [resetChildren, hd, hnf, hr, List.filter_cons]

/-- C1 amended: for every directory path with `reset` requested — if
the directory exists (and every file child's removal succeeds), the
reset removes every child except the subdirectory children whose
removal fails, each of which is tolerated with a logged warning; a file
child whose removal fails raises instead of being tolerated
(see the counterexample); if the directory does not exist it is created
together with any needed parent directories. -/
theorem folder_reset_amended (p : String) (st : DirState)
    (hf : ∀ c ∈ st.children, c.isDir = false → c.removeFails = false) :
    (st.ex = true → st.isDir = true →
      folder p st false true false
        = .ok (p, ⟨true, true, st.children.filter (fun c => c.isDir && c.removeFails)⟩,
               (st.children.filter (fun c => c.isDir && c.removeFails)).map
                 (fun c => Warn.rmFail c.name)))
      ∧ (st.ex = false →
          folder p st false true false = .ok (p, ⟨true, true, []⟩, [])) := by
  constructor
  · intro hex hdir
    simp [folder, hex, hdir, resetChildren_ok st.children hf]
  · intro hex
    simp [folder, hex]

theorem folder_reset_amended_witness :
    (∀ c ∈ [Child.mk "d" true true, Child.mk "e" true false, Child.mk "g" false false],
        c.isDir = false → c.removeFails = false)
      ∧ ((true = true → true = true →
            folder "p" ⟨true, true,
                [Child.mk "d" true true, Child.mk "e" true false, Child.mk "g" false false]⟩
              false true false
              = .ok ("p", ⟨true, true,
                  ([Child.mk "d" true true, Child.mk "e" true false,
                    Child.mk "g" false false].filter (fun c => c.isDir && c.removeFails))⟩,
                 (([Child.mk "d" true true, Child.mk "e" true false,
                    Child.mk "g" false false].filter (fun c => c.isDir && c.removeFails)).map
                   (fun c => Warn.rmFail c.name))))
          ∧ (DirState.ex ⟨true, true,
                [Child.mk "d" true true, Child.mk "e" true false, Child.mk "g" false false]⟩
                = false →
              folder "p" ⟨true, true,
                  [Child.mk "d" true true, Child.mk "e" true false, Child.mk "g" false false]⟩
                false true false = .ok ("p", ⟨true, true, []⟩, []))) :=
  ⟨by decide,
   folder_reset_amended "p"
     ⟨true, true, [Child.mk "d" true true, Child.mk "e" true false, Child.mk "g" false false]⟩
     (by decide)⟩

theorem csvLoop_filter (h : List String) (sil : Bool) :
    ∀ (rs : List (List String)) (num : Nat),
      (csvLoop true false true sil h num rs).out
          = (rs.filter (fun r => r.length == h.length)).map CsvRecord.fields
        ∧ (csvLoop true false true sil h num rs).err = none := by
  intro rs
  induction rs with
  | nil => intro num; exact ⟨rfl, rfl⟩
  | cons row rest ih =>
    intro num
    by_cases hm : h.length = row.length
    · have hk : (row.length == h.length) = true := by simp [hm]
      simp [csvLoop, hm, GenResult.push, List.filter_cons, hk,
        (ih (num + 1)).1, (ih (num + 1)).2]
    · have hk : (row.length == h.length) = false := by
        simp
        omega
      simp [csvLoop, hm, GenResult.warn, List.filter_cons, hk,
        (ih (num + 1)).1, (ih (num + 1)).2]

/-- C2: reading a CSV file with a header and data rows of which exactly
two (e.g. those at positions 2 and 5) have a field count differing
from the header's, with `match_header=True, ignore_error=True`, yields
exactly the matching data rows — each mismatched row is skipped without
raising, the rest keep their relative order (a sublist of the input),
and the count of yielded data rows is N-2. -/
theorem read_csv_skips_mismatched (p : String) (sh sil : Bool) (h : List String)
    (rs : List (List String))
    (hbad : (rs.filter (fun r => !(r.length == h.length))).length = 2) :
    (read_csv_lines p true true true sh true false true sil (h :: rs)).out
        = (if sh then [] else [CsvRecord.fields h])
            ++ (rs.filter (fun r => r.length == h.length)).map CsvRecord.fields
      ∧ (read_csv_lines p true true true sh true false true sil (h :: rs)).err = none
      ∧ ((rs.filter (fun r => r.length == h.length)).map CsvRecord.fields).Sublist
          (rs.map CsvRecord.fields)
      ∧ (read_csv_lines p true true true sh true false true sil (h :: rs)).out.length
        = (if sh then 0 else 1) + (rs.length - 2) := by
  have hloop := csvLoop_filter h sil rs 1
  have hsplit : ∀ l : List (List String),
      (l.filter (fun r => r.length == h.length)).length
        + (l.filter (fun r => !(r.length == h.length))).length = l.length := by
    intro l
    induction l with
    | nil => rfl
    | cons a tl ih =>
      cases hb : (a.length == h.length) <;> simp [List.filter_cons, hb] <;> omega
  have hcount :
      (rs.filter (fun r => r.length == h.length)).length = rs.length - 2 := by
    have h1 := hsplit rs
    omega
  have hsub :
      ((rs.filter (fun r => r.length == h.length)).map CsvRecord.fields).Sublist
        (rs.map CsvRecord.fields) :=
    (List.filter_sublist rs).map CsvRecord.fields
  cases sh with
  | false =>
    refine ⟨?_, ?_, hsub, ?_⟩
    · simp [read_csv_lines, filePath, GenResult.push, hloop.1]
    · simp [read_csv_lines, filePath, GenResult.push, hloop.2]
    · simp [read_csv_lines, filePath, GenResult.push, hloop.1, hcount]
      omega
  | true =>
    refine ⟨?_, ?_, hsub, ?_⟩
    · simp [read_csv_lines, filePath, hloop.1]
    · simp [read_csv_lines, filePath, hloop.2]
    · simp [read_csv_lines, filePath, hloop.1, hcount]

theorem read_csv_skips_mismatched_witness :
    ([["b"], ["x", "y"], ["c"], ["d"], ["u", "v"], ["e"]].filter
        (fun r => !(r.length == ["h"].length))).length = 2
      ∧ ((read_csv_lines "p" true true true true true false true false
            (["h"] :: [["b"], ["x", "y"], ["c"], ["d"], ["u", "v"], ["e"]])).out
            = (if true then [] else [CsvRecord.fields ["h"]])
                ++ ([["b"], ["x", "y"], ["c"], ["d"], ["u", "v"], ["e"]].filter
                      (fun r => r.length == ["h"].length)).map CsvRecord.fields
          ∧ (read_csv_lines "p" true true true true true false true false
              (["h"] :: [["b"], ["x", "y"], ["c"], ["d"], ["u", "v"], ["e"]])).err = none
          ∧ (([["b"], ["x", "y"], ["c"], ["d"], ["u", "v"], ["e"]].filter
                (fun r => r.length == ["h"].length)).map CsvRecord.fields).Sublist
              ([["b"], ["x", "y"], ["c"], ["d"], ["u", "v"], ["e"]].map CsvRecord.fields)
          ∧ (read_csv_lines "p" true true true true true false true false
              (["h"] :: [["b"], ["x", "y"], ["c"], ["d"], ["u", "v"], ["e"]])).out.length
            = (if true then 0 else 1)
                + ([["b"], ["x", "y"], ["c"], ["d"], ["u", "v"], ["e"]].length - 2)) :=
  ⟨by decide,
   read_csv_skips_mismatched "p" true false ["h"]
     [["b"], ["x", "y"], ["c"], ["d"], ["u", "v"], ["e"]] (by decide)⟩

/-! ## Round trip of the JSON codec

`jsonLoads` recovers every well-formed value `jsonDumps` produces.
First the string-literal layer, then numbers, then the fuelled value
parser. -/

theorem char_range (c : Char) :
    c.toNat < 55296 ∨ (57344 ≤ c.toNat ∧ c.toNat < 1114112) := by
  have h := c.valid
  simp only [isValidChar] at h
  rcases h with h | ⟨h1, h2⟩
  · left
    have h3 : c.val.toNat < (55296 : UInt32).toNat := h
    have h4 : (55296 : UInt32).toNat = 55296 := rfl
    show c.val.toNat < 55296
    omega
  · right
    have h3 : (57343 : UInt32).toNat < c.val.toNat := h1
    have h4 : c.val.toNat < (1114112 : UInt32).toNat := h2
    have h5 : (57343 : UInt32).toNat = 57343 := rfl
    have h6 : (1114112 : UInt32).toNat = 1114112 := rfl
    constructor
    · show 57344 ≤ c.val.toNat
      omega
    · show c.val.toNat < 1114112
      omega

theorem hexVal_hexDigitChar : ∀ d, d < 16 → hexVal (hexDigitChar d) = some d := by
  decide

theorem hexVal4_hex4 (n : Nat) (h : n < 65536) :
    hexVal4 (hexDigitChar (n / 4096 % 16)) (hexDigitChar (n / 256 % 16))
      (hexDigitChar (n / 16 % 16)) (hexDigitChar (n % 16)) = some n := by
  rw [hexVal4, hexVal_hexDigitChar (n / 4096 % 16) (by omega),
    hexVal_hexDigitChar (n / 256 % 16) (by omega),
    hexVal_hexDigitChar (n / 16 % 16) (by omega),
    hexVal_hexDigitChar (n % 16) (by omega)]
  show some _ = some n
  congr 1
  omega


theorem parseStrF_quote (f : Nat) (rest : List Char) :
    parseStrF (f + 1) ('"' :: rest) = some ([], rest) := rfl

theorem parseStrF_esc_quote (f : Nat) (rest : List Char) :
    parseStrF (f + 1) ('\\' :: '"' :: rest)
      = match parseStrF f rest with
        | some (cs, r) => some ('"' :: cs, r)
        | none => none := rfl

theorem parseStrF_esc_back (f : Nat) (rest : List Char) :
    parseStrF (f + 1) ('\\' :: '\\' :: rest)
      = match parseStrF f rest with
        | some (cs, r) => some ('\\' :: cs, r)
        | none => none := rfl

theorem parseStrF_esc_b (f : Nat) (rest : List Char) :
    parseStrF (f + 1) ('\\' :: 'b' :: rest)
      = match parseStrF f rest with
        | some (cs, r) => some ('\x08' :: cs, r)
        | none => none := rfl

theorem parseStrF_esc_t (f : Nat) (rest : List Char) :
    parseStrF (f + 1) ('\\' :: 't' :: rest)
      = match parseStrF f rest with
        | some (cs, r) => some ('\t' :: cs, r)
        | none => none := rfl

theorem parseStrF_esc_n (f : Nat) (rest : List Char) :
    parseStrF (f + 1) ('\\' :: 'n' :: rest)
      = match parseStrF f rest with
        | some (cs, r) => some ('\n' :: cs, r)
        | none => none := rfl

theorem parseStrF_esc_f (f : Nat) (rest : List Char) :
    parseStrF (f + 1) ('\\' :: 'f' :: rest)
      = match parseStrF f rest with
        | some (cs, r) => some ('\x0c' :: cs, r)
        | none => none := rfl

theorem parseStrF_esc_r (f : Nat) (rest : List Char) :
    parseStrF (f + 1) ('\\' :: 'r' :: rest)
      = match parseStrF f rest with
        | some (cs, r) => some ('\r' :: cs, r)
        | none => none := rfl

theorem parseStrF_step_raw (f : Nat) (c : Char) (rest : List Char)
    (h1 : c ≠ '"') (h2 : c ≠ '\\') (h3 : 32 ≤ c.toNat) :
    parseStrF (f + 1) (c :: rest)
      = match parseStrF f rest with
        | some (cs, r) => some (c :: cs, r)
        | none => none := by
  simp only [parseStrF, reduceIte]
  rw [if_neg h1, if_neg h2, if_neg (by omega)]

theorem parseStrF_step_u (f : Nat) (a b c d : Char) (n : Nat) (rest : List Char)
    (hv : hexVal4 a b c d = some n) (hno : n < 55296 ∨ 57344 ≤ n) :
    parseStrF (f + 1) ('\\' :: 'u' :: a :: b :: c :: d :: rest)
      = match parseStrF f rest with
        | some (cs, r) => some (Char.ofNat n :: cs, r)
        | none => none := by
  simp only [parseStrF, hv, reduceIte]
  rw [if_neg (show ¬(55296 ≤ n ∧ n < 56320) by omega),
    if_neg (show ¬(56320 ≤ n ∧ n < 57344) by omega),
    if_neg (show ¬(('\\' : Char) = '"') by decide)]

theorem parseStrF_step_pair (f : Nat) (a b c d a2 b2 c2 d2 : Char) (n1 n2 : Nat)
    (rest : List Char)
    (hv1 : hexVal4 a b c d = some n1) (h1 : 55296 ≤ n1 ∧ n1 < 56320)
    (hv2 : hexVal4 a2 b2 c2 d2 = some n2) (h2 : 56320 ≤ n2 ∧ n2 < 57344) :
    parseStrF (f + 1)
        ('\\' :: 'u' :: a :: b :: c :: d :: '\\' :: 'u' :: a2 :: b2 :: c2 :: d2 :: rest)
      = match parseStrF f rest with
        | some (cs, r) =>
          some (Char.ofNat (65536 + (n1 - 55296) * 1024 + (n2 - 56320)) :: cs, r)
        | none => none := by
  simp only [parseStrF, hv1, reduceIte]
  rw [if_pos h1]
  simp only [hv2, reduceIte]
  rw [if_pos h2, if_pos (⟨trivial, trivial⟩ : True ∧ True),
    if_neg (show ¬(('\\' : Char) = '"') by decide)]

theorem escList_len (ea : Bool) : ∀ cs : List Char, cs.length ≤ (escList ea cs).length := by
  intro cs
  induction cs with
  | nil => simp [escList]
  | cons c cs ih =>
    have h1 : 1 ≤ (escChar ea c).length := by
      rw [escChar]
      split_ifs <;> first
        | simp
        | (rw [uEsc]; split_ifs <;> simp [hex4])
    simp only [escList, List.length_append, List.length_cons]
    omega

theorem parseStrF_escList (ea : Bool) :
    ∀ (cs : List Char) (fuel : Nat) (rest : List Char), cs.length < fuel →
      parseStrF fuel (escList ea cs ++ ('"' :: rest)) = some (cs, rest) := by
  intro cs
  induction cs with
  | nil =>
    intro fuel rest hf
    match fuel, hf with
    | f + 1, _ => exact parseStrF_quote f rest
  | cons c cs ih =>
    intro fuel rest hf
    match fuel, hf with
    | f + 1, hf =>
      have hfc : cs.length < f := by
        simp only [List.length_cons] at hf
        omega
      have ihr := ih f rest hfc
      show parseStrF (f + 1) ((escChar ea c ++ escList ea cs) ++ ('"' :: rest)) = _
      rw [List.append_assoc]
      by_cases h1 : c = '"'
      · subst h1
        rw [show escChar ea '"' = ['\\', '"'] from rfl]
        simp only [List.cons_append, List.nil_append]
        rw [parseStrF_esc_quote f _, ihr]
      · by_cases h2 : c = '\\'
        · subst h2
          rw [show escChar ea '\\' = ['\\', '\\'] from rfl]
          simp only [List.cons_append, List.nil_append]
          rw [parseStrF_esc_back f _, ihr]
        · by_cases h3 : c = '\x08'
          · subst h3
            rw [show escChar ea '\x08' = ['\\', 'b'] from rfl]
            simp only [List.cons_append, List.nil_append]
            rw [parseStrF_esc_b f _, ihr]
          · by_cases h4 : c = '\t'
            · subst h4
              rw [show escChar ea '\t' = ['\\', 't'] from rfl]
              simp only [List.cons_append, List.nil_append]
              rw [parseStrF_esc_t f _, ihr]
            · by_cases h5 : c = '\n'
              · subst h5
                rw [show escChar ea '\n' = ['\\', 'n'] from rfl]
                simp only [List.cons_append, List.nil_append]
                rw [parseStrF_esc_n f _, ihr]
              · by_cases h6 : c = '\x0c'
                · subst h6
                  rw [show escChar ea '\x0c' = ['\\', 'f'] from rfl]
                  simp only [List.cons_append, List.nil_append]
                  rw [parseStrF_esc_f f _, ihr]
                · by_cases h7 : c = '\r'
                  · subst h7
                    rw [show escChar ea '\r' = ['\\', 'r'] from rfl]
                    simp only [List.cons_append, List.nil_append]
                    rw [parseStrF_esc_r f _, ihr]
                  · by_cases h8 : c.toNat < 32
                    · rw [escChar, if_neg h1, if_neg h2, if_neg h3, if_neg h4,
                        if_neg h5, if_neg h6, if_neg h7, if_pos h8, hex4]
                      simp only [List.cons_append, List.nil_append]
                      rw [parseStrF_step_u f _ _ _ _ c.toNat _
                        (hexVal4_hex4 c.toNat (by omega)) (Or.inl (by omega))]
                      rw [ihr, Char.ofNat_toNat]
                    · by_cases h9 : ea = true ∧ 126 < c.toNat
                      · rw [escChar, if_neg h1, if_neg h2, if_neg h3, if_neg h4,
                          if_neg h5, if_neg h6, if_neg h7, if_neg h8,
                          if_pos (by simp [h9.1, h9.2])]
                        rcases char_range c with hr | hr
                        · rw [uEsc, if_pos (by omega), hex4]
                          simp only [List.cons_append, List.nil_append]
                          rw [parseStrF_step_u f _ _ _ _ c.toNat _
                            (hexVal4_hex4 c.toNat (by omega)) (Or.inl (by omega))]
                          rw [ihr, Char.ofNat_toNat]
                        · by_cases hbmp : c.toNat < 65536
                          · rw [uEsc, if_pos (by omega), hex4]
                            simp only [List.cons_append, List.nil_append]
                            rw [parseStrF_step_u f _ _ _ _ c.toNat _
                              (hexVal4_hex4 c.toNat (by omega)) (Or.inr (by omega))]
                            rw [ihr, Char.ofNat_toNat]
                          · rw [uEsc, if_neg (by omega), hex4, hex4]
                            simp only [List.cons_append, List.nil_append,
                              List.append_assoc]
                            rw [parseStrF_step_pair f _ _ _ _ _ _ _ _
                              (55296 + (c.toNat - 65536) / 1024)
                              (56320 + (c.toNat - 65536) % 1024) _
                              (hexVal4_hex4 _ (by omega)) (by omega)
                              (hexVal4_hex4 _ (by omega)) (by omega)]
                            rw [ihr]
                            have harith :
                                65536 + (55296 + (c.toNat - 65536) / 1024 - 55296) * 1024
                                    + (56320 + (c.toNat - 65536) % 1024 - 56320)
                                  = c.toNat := by omega
                            rw [harith, Char.ofNat_toNat]
                      · rw [escChar, if_neg h1, if_neg h2, if_neg h3, if_neg h4,
                          if_neg h5, if_neg h6, if_neg h7, if_neg h8,
                          if_neg (show ¬(ea && decide (126 < c.toNat)) = true by
                            simp
                            intro hea
                            rcases Classical.em (126 < c.toNat) with hc | hc
                            · exact absurd ⟨hea, hc⟩ h9
                            · omega)]
                        simp only [List.singleton_append]
                        rw [parseStrF_step_raw f c _ h1 h2 (by omega), ihr]

theorem parseStr_escList (ea : Bool) (cs rest : List Char) :
    parseStr (escList ea cs ++ ('"' :: rest)) = some (cs, rest) := by
  apply parseStrF_escList
  have h := escList_len ea cs
  simp only [List.length_append, List.length_cons]
  omega

/-! Integer round trip. -/

theorem takeWhile_all_append (p : Char → Bool) :
    ∀ (xs ys : List Char), (∀ c ∈ xs, p c = true) →
      (match ys with | [] => True | y :: _ => p y = false) →
      (xs ++ ys).takeWhile p = xs ∧ (xs ++ ys).dropWhile p = ys := by
  intro xs
  induction xs with
  | nil =>
    intro ys _ hy
    match ys, hy with
    | [], _ => exact ⟨rfl, rfl⟩
    | y :: ys, hy => simp [List.takeWhile, List.dropWhile, hy]
  | cons x xs ih =>
    intro ys hx hy
    have hpx : p x = true := hx x (List.mem_cons_self _ _)
    have := ih ys (fun c hc => hx c (List.mem_cons_of_mem _ hc)) hy
    simp [List.takeWhile_cons, List.dropWhile_cons, hpx, this.1, this.2]

theorem parseUNum_natChars (n : Nat) (rest : List Char)
    (hrest : match rest with | [] => True | c :: _ => c.isDigit = false) :
    parseUNum (natChars n ++ rest) = some (n, rest) := by
  rcases hq : natChars n with _ | ⟨c, cs⟩
  · exact absurd hq (natChars_ne_nil n)
  · have hdig : ∀ x ∈ c :: cs, x.isDigit = true := by
      rw [← hq]
      exact natChars_all_digits n
    have hsplit := takeWhile_all_append Char.isDigit cs rest
      (fun x hx => hdig x (List.mem_cons_of_mem _ hx)) hrest
    by_cases hz : n = 0
    · subst hz
      have : natChars 0 = ['0'] := rfl
      rw [this] at hq
      have hc : c = '0' := by
        simpa using congrArg (fun l => l.headD ' ') hq.symm
      have hcs : cs = [] := by
        simpa using congrArg List.tail hq.symm
      subst hc
      subst hcs
      simp [parseUNum]
    · have hne0 : c ≠ '0' := natChars_head_ne_zero n (by omega) c cs hq
      have hfold : List.foldl (fun a c => 10 * a + dval c) (dval c) cs = n := by
        have h0 := natChars_foldl n 0
        rw [hq] at h0
        simpa using h0
      show parseUNum (c :: (cs ++ rest)) = some (n, rest)
      rw [parseUNum]
      rw [if_neg hne0, if_pos (hdig c (List.mem_cons_self _ _))]
      rw [hsplit.1, hsplit.2, hfold]

theorem parseInt_intChars (i : Int) (rest : List Char)
    (hrest : match rest with | [] => True | c :: _ => c.isDigit = false) :
    parseInt (intChars i ++ rest) = some (i, rest) := by
  by_cases hneg : i < 0
  · rw [intChars, if_pos hneg]
    show parseInt ('-' :: (natChars i.natAbs ++ rest)) = some (i, rest)
    rw [parseInt, if_pos rfl, parseUNum_natChars i.natAbs rest hrest]
    show some (-(i.natAbs : Int), rest) = some (i, rest)
    have : -(i.natAbs : Int) = i := by omega
    rw [this]
  · rw [intChars, if_neg hneg]
    rcases hq : natChars i.natAbs with _ | ⟨c, cs⟩
    · exact absurd hq (natChars_ne_nil _)
    · have hdig : c.isDigit = true := by
        have := natChars_all_digits i.natAbs
        rw [hq] at this
        exact this c (List.mem_cons_self _ _)
      have hm : c ≠ '-' := by
        intro he
        rw [he] at hdig
        exact absurd hdig (by decide)
      show parseInt (c :: (cs ++ rest)) = some (i, rest)
      rw [parseInt, if_neg hm]
      have := parseUNum_natChars i.natAbs rest hrest
      rw [hq] at this
      show (match parseUNum (c :: (cs ++ rest)) with
        | some (n, r) => some ((n : Int), r)
        | none => none) = some (i, rest)
      rw [show c :: (cs ++ rest) = (c :: cs) ++ rest from rfl, this]
      show some ((i.natAbs : Int), rest) = some (i, rest)
      have : ((i.natAbs : Int)) = i := by omega
      rw [this]

/-! Dict semantics on parsed members: with pairwise-distinct keys the
fold of inserts is the identity. -/

theorem oAppend_nil : ∀ a : JsonObj, oAppend a .nil = a
  | .nil => rfl
  | .cons k v tl => by rw [oAppend, oAppend_nil tl]

theorem oAppend_assoc : ∀ a b c : JsonObj,
    oAppend (oAppend a b) c = oAppend a (oAppend b c)
  | .nil, _, _ => rfl
  | .cons k v tl, b, c => by rw [oAppend, oAppend, oAppend, oAppend_assoc tl b c]

theorem oHasKey_append : ∀ (a b : JsonObj) (k : String),
    oHasKey (oAppend a b) k = (oHasKey a k || oHasKey b k)
  | .nil, b, k => by rw [oAppend, oHasKey, Bool.false_or]
  | .cons k0 v tl, b, k => by
    rw [oAppend, oHasKey, oHasKey, oHasKey_append tl b k, Bool.or_assoc]

theorem oFoldInsert_disjoint : ∀ (kvs acc : JsonObj),
    oKeysNodup kvs = true →
    (∀ k, oHasKey kvs k = true → oHasKey acc k = false) →
    oFoldInsert acc kvs = oAppend acc kvs
  | .nil, acc, _, _ => by rw [oFoldInsert, oAppend_nil]
  | .cons k v tl, acc, hnd, hdisj => by
    rw [oKeysNodup, Bool.and_eq_true, Bool.not_eq_true'] at hnd
    have hk : oHasKey acc k = false := by
      apply hdisj k
      rw [oHasKey]
      simp
    rw [oFoldInsert, oInsert, if_neg (by simp [hk])]
    have hdisj' : ∀ k2, oHasKey tl k2 = true →
        oHasKey (oAppend acc (.cons k v .nil)) k2 = false := by
      intro k2 hk2
      rw [oHasKey_append]
      have h1 : oHasKey acc k2 = false := by
        apply hdisj k2
        rw [oHasKey, hk2]
        simp
      rw [h1, oHasKey, oHasKey]
      simp only [Bool.false_or, Bool.or_false]
      cases hbe : (k == k2)
      · rfl
      · have : k = k2 := by
          have := hbe
          simpa using this
        rw [this] at hnd
        rw [hnd.1] at hk2
        exact absurd hk2 (by simp)
    rw [oFoldInsert_disjoint tl (oAppend acc (.cons k v .nil)) hnd.2 hdisj']
    rw [oAppend_assoc]
    rfl

theorem pyDictJson_nodup (kvs : JsonObj) (h : oKeysNodup kvs = true) :
    pyDictJson kvs = kvs := by
  rw [pyDictJson, oFoldInsert_disjoint kvs .nil h (fun k _ => rfl)]
  rfl

/-! Size is bounded by the serialized length, so the fuel `jsonLoads`
supplies is always adequate. -/

theorem sizeJ_pos : ∀ v : Json, 1 ≤ sizeJ v
  | .null => Nat.le.refl
  | .bool _ => Nat.le.refl
  | .num _ => Nat.le.refl
  | .str _ => Nat.le.refl
  | .arr _ => by rw [sizeJ]; omega
  | .obj _ => by rw [sizeJ]; omega

mutual
theorem sizeJ_le_len (ea : Bool) : ∀ v : Json, sizeJ v ≤ (dumpsJ ea v).length
  | .null => by exact (by omega : (1 : Nat) ≤ 4)
  | .bool true => by exact (by omega : (1 : Nat) ≤ 4)
  | .bool false => by exact (by omega : (1 : Nat) ≤ 5)
  | .num i => by
    show 1 ≤ (dumpsJ ea (Json.num i)).length
    have h := natChars_ne_nil i.natAbs
    rw [dumpsJ, intChars]
    rcases hq : natChars i.natAbs with _ | ⟨c, cs⟩
    · exact absurd hq h
    · split
      · simp
      · simp [hq]
  | .str s => by
    show 1 ≤ (dumpsJ ea (Json.str s)).length
    rw [dumpsJ, escString]
    simp
  | .arr .nil => by rw [sizeJ, sizeL, dumpsJ]; simp
  | .arr (.cons v tl) => by
    rw [sizeJ, sizeL, dumpsJ]
    have h1 := sizeJ_le_len ea v
    have h2 := sizeL_le_len ea tl
    simp only [List.length_cons, List.length_append]
    omega
  | .obj .nil => by rw [sizeJ, sizeO, dumpsJ]; simp
  | .obj (.cons k v tl) => by
    rw [sizeJ, sizeO, dumpsJ]
    have h1 := sizeJ_le_len ea v
    have h2 := sizeO_le_len ea tl
    simp only [List.length_cons, List.length_append]
    omega
theorem sizeL_le_len (ea : Bool) : ∀ tl : JsonList, sizeL tl + 1 ≤ (dumpsArrTail ea tl).length
  | .nil => by rw [sizeL, dumpsArrTail]; simp
  | .cons v tl => by
    rw [sizeL, dumpsArrTail]
    have h1 := sizeJ_le_len ea v
    have h2 := sizeL_le_len ea tl
    simp only [List.length_cons, List.length_append]
    omega
theorem sizeO_le_len (ea : Bool) : ∀ tl : JsonObj, sizeO tl + 1 ≤ (dumpsObjTail ea tl).length
  | .nil => by rw [sizeO, dumpsObjTail]; simp
  | .cons k v tl => by
    rw [sizeO, dumpsObjTail]
    have h1 := sizeJ_le_len ea v
    have h2 := sizeO_le_len ea tl
    simp only [List.length_cons, List.length_append]
    omega
end

/-! Parser helpers for the round-trip proof. -/

/-- What may legally follow a serialized value so that number parsing
stops in the right place: end of input or a non-digit character. -/
def restOk (rest : List Char) : Prop :=
  match rest with
  | [] => True
  | c :: _ => c.isDigit = false

theorem skipWs_not_ws :
    ∀ X : List Char, (match X with | [] => True | c :: _ => isJsonWs c = false) →
      skipWs X = X := by
  intro X hX
  match X, hX with
  | [], _ => rfl
  | c :: rest, hX => simp [skipWs, List.dropWhile_cons, hX]

theorem digit_facts (c : Char) (h : c.isDigit = true) :
    isJsonWs c = false ∧ c ≠ ']' ∧ c ≠ '\x7d' ∧ c ≠ '\x7b' ∧ c ≠ '['
      ∧ c ≠ '"' ∧ c ≠ 't' ∧ c ≠ 'f' ∧ c ≠ 'n' ∧ c ≠ '-' := by
  refine ⟨?_, ?_, ?_, ?_, ?_, ?_, ?_, ?_, ?_, ?_⟩
  · cases hw : isJsonWs c
    · rfl
    · simp only [isJsonWs, Bool.or_eq_true, decide_eq_true_eq] at hw
      rcases hw with ((h1 | h1) | h1) | h1 <;> (rw [h1] at h; exact absurd h (by decide))
  all_goals intro he
  all_goals rw [he] at h
  all_goals exact absurd h (by decide)

/-- The serialized form of a value never starts with whitespace, a
closing bracket or a closing brace. -/
theorem dumpsJ_head (ea : Bool) (v : Json) :
    match dumpsJ ea v with
    | [] => False
    | c :: _ => isJsonWs c = false ∧ c ≠ ']' ∧ c ≠ '\x7d' := by
  cases v with
  | null => exact ⟨by decide, by decide, by decide⟩
  | bool b => cases b <;> exact ⟨by decide, by decide, by decide⟩
  | num i =>
    rcases hq : natChars i.natAbs with _ | ⟨c, cs⟩
    · exact absurd hq (natChars_ne_nil _)
    · have hd : c.isDigit = true := by
        have := natChars_all_digits i.natAbs
        rw [hq] at this
        exact this c (List.mem_cons_self _ _)
      have hf := digit_facts c hd
      rw [dumpsJ, intChars]
      by_cases hi : i < 0
      · rw [if_pos hi]
        exact ⟨by decide, by decide, by decide⟩
      · rw [if_neg hi, hq]
        exact ⟨hf.1, hf.2.1, hf.2.2.1⟩
  | str s => exact ⟨by decide, by decide, by decide⟩
  | arr xs => cases xs <;> exact ⟨by decide, by decide, by decide⟩
  | obj kvs => cases kvs <;> exact ⟨by decide, by decide, by decide⟩


theorem skipWs_cons_ws (X : List Char) : skipWs (' ' :: X) = skipWs X := by
  simp [skipWs, List.dropWhile_cons, isJsonWs]

theorem parseVal_step_num (f : Nat) (c : Char) (input : List Char)
    (h : c = '-' ∨ c.isDigit = true) :
    parseVal (f + 1) (c :: input)
      = match parseInt (c :: input) with
        | some (i, r) => some (Json.num i, r)
        | none => none := by
  rcases h with h | h
  · subst h
    rfl
  · have hf := digit_facts c h
    simp only [parseVal]
    rw [if_neg hf.2.2.2.1, if_neg hf.2.2.2.2.1, if_neg hf.2.2.2.2.2.1,
      if_neg hf.2.2.2.2.2.2.1, if_neg hf.2.2.2.2.2.2.2.1, if_neg hf.2.2.2.2.2.2.2.2.1,
      if_pos (by simp [h])]

theorem dumpsJ_append_head (ea : Bool) (v : Json) (Y : List Char) :
    (match dumpsJ ea v ++ Y with
      | [] => False
      | c :: _ => isJsonWs c = false ∧ c ≠ ']' ∧ c ≠ '\x7d') := by
  have h := dumpsJ_head ea v
  rcases hd : dumpsJ ea v with _ | ⟨c, cs⟩
  · rw [hd] at h
    exact h.elim
  · rw [hd] at h
    simpa using h

theorem parseVal_step_arr (f : Nat) (X : List Char)
    (hX : match X with | [] => False | c :: _ => isJsonWs c = false ∧ c ≠ ']') :
    parseVal (f + 1) ('[' :: X)
      = match parseElems f X with
        | some (xs, r) => some (Json.arr xs, r)
        | none => none := by
  match X, hX with
  | c :: xs, hX =>
    simp only [parseVal]
    rw [if_neg (show ¬(('[' : Char) = '\x7b') by decide)]
    simp only [eq_self_iff_true, if_true]
    rw [skipWs_not_ws (c :: xs) hX.1]
    rw [if_neg (show ¬((c :: xs).head? = some ']') by simp [hX.2])]

theorem parseVal_step_obj (f : Nat) (X : List Char)
    (hX : match X with | [] => False | c :: _ => isJsonWs c = false ∧ c ≠ '\x7d') :
    parseVal (f + 1) ('\x7b' :: X)
      = match parseMembers f X with
        | some (kvs, r) => some (Json.obj (pyDictJson kvs), r)
        | none => none := by
  match X, hX with
  | c :: xs, hX =>
    simp only [parseVal]
    simp only [eq_self_iff_true, if_true]
    rw [skipWs_not_ws (c :: xs) hX.1]
    rw [if_neg (show ¬((c :: xs).head? = some '\x7d') by simp [hX.2])]

theorem intChars_ne_nil (i : Int) : intChars i ≠ [] := by
  rw [intChars]
  split
  · simp
  · exact natChars_ne_nil _

theorem intChars_head (i : Int) : ∀ c cs, intChars i = c :: cs →
    c = '-' ∨ c.isDigit = true := by
  intro c cs h
  rw [intChars] at h
  split at h
  · left
    injection h with h1 _
    exact h1.symm
  · right
    have := natChars_all_digits i.natAbs
    rw [h] at this
    exact this c (List.mem_cons_self _ _)

theorem parse_dumps (ea : Bool) : ∀ fuel : Nat,
    (∀ (v : Json) (rest : List Char), wfJ v = true → sizeJ v ≤ fuel → restOk rest →
      parseVal fuel (dumpsJ ea v ++ rest) = some (v, rest))
    ∧ (∀ (v : Json) (tl : JsonList) (rest : List Char),
        wfJ v = true → wfL tl = true → sizeL (JsonList.cons v tl) ≤ fuel → restOk rest →
        parseElems fuel (dumpsJ ea v ++ (dumpsArrTail ea tl ++ rest))
          = some (JsonList.cons v tl, rest))
    ∧ (∀ (k : String) (v : Json) (tl : JsonObj) (rest : List Char),
        wfJ v = true → wfO tl = true → sizeO (JsonObj.cons k v tl) ≤ fuel → restOk rest →
        parseMembers fuel
            (escString ea k ++ ':' :: ' ' :: (dumpsJ ea v ++ (dumpsObjTail ea tl ++ rest)))
          = some (JsonObj.cons k v tl, rest)) := by
  intro fuel
  induction fuel with
  | zero =>
    refine ⟨?_, ?_, ?_⟩
    · intro v rest _ hs _
      have := sizeJ_pos v
      omega
    · intro v tl rest _ _ hs _
      have := sizeJ_pos v
      rw [sizeL] at hs
      omega
    · intro k v tl rest _ _ hs _
      have := sizeJ_pos v
      rw [sizeO] at hs
      omega
  | succ f ih =>
    obtain ⟨ihV, ihE, ihM⟩ := ih
    refine ⟨?_, ?_, ?_⟩
    · intro v rest hwf hs hrest
      cases v with
      | null => rfl
      | bool b => cases b <;> rfl
      | num i =>
        show parseVal (f + 1) (intChars i ++ rest) = some (.num i, rest)
        rcases hq : intChars i with _ | ⟨c, cs⟩
        · exact absurd hq (intChars_ne_nil i)
        · show parseVal (f + 1) (c :: (cs ++ rest)) = _
          rw [parseVal_step_num f c _ (intChars_head i c cs hq)]
          rw [show c :: (cs ++ rest) = (c :: cs) ++ rest from rfl, ← hq,
            parseInt_intChars i rest hrest]
      | str s =>
        show (match parseStr ((escList ea s.data ++ ['"']) ++ rest) with
              | some (cs, r) => some (Json.str (String.mk cs), r)
              | none => none) = some (.str s, rest)
        rw [show (escList ea s.data ++ ['"']) ++ rest
            = escList ea s.data ++ ('"' :: rest) by simp]
        rw [parseStr_escList ea s.data rest]
      | arr xs =>
        cases xs with
        | nil => rfl
        | cons v1 tl =>
          rw [wfJ, wfL, Bool.and_eq_true] at hwf
          rw [sizeJ, sizeL] at hs
          show parseVal (f + 1)
              ('[' :: ((dumpsJ ea v1 ++ dumpsArrTail ea tl) ++ rest)) = _
          rw [List.append_assoc]
          rw [parseVal_step_arr f _ (by
            have hh := dumpsJ_append_head ea v1 (dumpsArrTail ea tl ++ rest)
            rcases hd2 : dumpsJ ea v1 ++ (dumpsArrTail ea tl ++ rest) with _ | ⟨c0, cs0⟩
            · rw [hd2] at hh
              exact hh
            · rw [hd2] at hh
              exact ⟨hh.1, hh.2.1⟩)]
          rw [ihE v1 tl rest hwf.1 hwf.2 (by rw [sizeL]; omega) hrest]
      | obj kvs =>
        cases kvs with
        | nil => rfl
        | cons k v1 tl =>
          rw [wfJ, Bool.and_eq_true] at hwf
          rw [sizeJ, sizeO] at hs
          have hwfo := hwf.2
          rw [wfO, Bool.and_eq_true] at hwfo
          show parseVal (f + 1)
              ('\x7b' :: ((escString ea k ++ ':' :: ' '
                :: (dumpsJ ea v1 ++ dumpsObjTail ea tl)) ++ rest)) = _
          rw [show (escString ea k ++ ':' :: ' '
                :: (dumpsJ ea v1 ++ dumpsObjTail ea tl)) ++ rest
              = escString ea k ++ ':' :: ' '
                :: (dumpsJ ea v1 ++ (dumpsObjTail ea tl ++ rest)) by simp]
          rw [parseVal_step_obj f _ (by
            rw [escString]
            exact ⟨by decide, by decide⟩)]
          rw [ihM k v1 tl rest hwfo.1 hwfo.2 (by rw [sizeO]; omega) hrest]
          show some (Json.obj (pyDictJson (JsonObj.cons k v1 tl)), rest)
            = some (Json.obj (JsonObj.cons k v1 tl), rest)
          rw [pyDictJson_nodup _ hwf.1]
    · intro v tl rest hwfv hwfl hs hrest
      have hrest2 : restOk (dumpsArrTail ea tl ++ rest) := by
        cases tl
        · exact (by decide : (']' : Char).isDigit = false)
        · exact (by decide : (',' : Char).isDigit = false)
      have h1 := ihV v (dumpsArrTail ea tl ++ rest) hwfv
        (by rw [sizeL] at hs; omega) hrest2
      cases tl with
      | nil =>
        have hsk : skipWs (dumpsArrTail ea JsonList.nil ++ rest) = ']' :: rest :=
          skipWs_not_ws _ ((by decide : isJsonWs ']' = false))
        simp only [parseElems, h1, hsk]
      | cons v2 tl2 =>
        rw [wfL, Bool.and_eq_true] at hwfl
        rw [sizeL] at hs
        have hsk : skipWs (dumpsArrTail ea (JsonList.cons v2 tl2) ++ rest)
            = ',' :: ' ' :: (dumpsJ ea v2 ++ (dumpsArrTail ea tl2 ++ rest)) := by
          rw [show dumpsArrTail ea (JsonList.cons v2 tl2) ++ rest
              = ',' :: ' ' :: (dumpsJ ea v2 ++ (dumpsArrTail ea tl2 ++ rest)) by
            rw [dumpsArrTail]
            simp]
          exact skipWs_not_ws _ ((by decide : isJsonWs ',' = false))
        have hsk2 : skipWs (' ' :: (dumpsJ ea v2 ++ (dumpsArrTail ea tl2 ++ rest)))
            = dumpsJ ea v2 ++ (dumpsArrTail ea tl2 ++ rest) := by
          rw [skipWs_cons_ws]
          apply skipWs_not_ws
          have hh := dumpsJ_append_head ea v2 (dumpsArrTail ea tl2 ++ rest)
          rcases hd2 : dumpsJ ea v2 ++ (dumpsArrTail ea tl2 ++ rest) with _ | ⟨c0, cs0⟩
          · rw [hd2] at hh
            exact hh.elim
          · rw [hd2] at hh
            exact hh.1
        have h2 := ihE v2 tl2 rest hwfl.1 hwfl.2
          (by have := sizeJ_pos v; omega) hrest
        simp only [parseElems, h1, hsk, hsk2, h2]
    · intro k v tl rest hwfv hwfo hs hrest
      show parseMembers (f + 1)
          ('"' :: ((escList ea k.data ++ ['"'])
            ++ (':' :: ' ' :: (dumpsJ ea v ++ (dumpsObjTail ea tl ++ rest))))) = _
      have hstr : parseStr ((escList ea k.data ++ ['"'])
          ++ (':' :: ' ' :: (dumpsJ ea v ++ (dumpsObjTail ea tl ++ rest))))
          = some (k.data, ':' :: ' ' :: (dumpsJ ea v ++ (dumpsObjTail ea tl ++ rest))) := by
        rw [show (escList ea k.data ++ ['"'])
            ++ (':' :: ' ' :: (dumpsJ ea v ++ (dumpsObjTail ea tl ++ rest)))
            = escList ea k.data
              ++ ('"' :: (':' :: ' ' :: (dumpsJ ea v ++ (dumpsObjTail ea tl ++ rest)))) by
          simp]
        exact parseStr_escList ea k.data _
      have hsk0 : skipWs (':' :: ' ' :: (dumpsJ ea v ++ (dumpsObjTail ea tl ++ rest)))
          = ':' :: ' ' :: (dumpsJ ea v ++ (dumpsObjTail ea tl ++ rest)) :=
        skipWs_not_ws _ ((by decide : isJsonWs ':' = false))
      have hskv : skipWs (' ' :: (dumpsJ ea v ++ (dumpsObjTail ea tl ++ rest)))
          = dumpsJ ea v ++ (dumpsObjTail ea tl ++ rest) := by
        rw [skipWs_cons_ws]
        apply skipWs_not_ws
        have hh := dumpsJ_append_head ea v (dumpsObjTail ea tl ++ rest)
        rcases hd2 : dumpsJ ea v ++ (dumpsObjTail ea tl ++ rest) with _ | ⟨c0, cs0⟩
        · rw [hd2] at hh
          exact hh.elim
        · rw [hd2] at hh
          exact hh.1
      have hrest2 : restOk (dumpsObjTail ea tl ++ rest) := by
        cases tl
        · exact (by decide : ('\x7d' : Char).isDigit = false)
        · exact (by decide : (',' : Char).isDigit = false)
      have h1 := ihV v (dumpsObjTail ea tl ++ rest) hwfv
        (by rw [sizeO] at hs; omega) hrest2
      have hmk : String.mk (String.data k) = k := rfl
      cases tl with
      | nil =>
        have hsk : skipWs (dumpsObjTail ea JsonObj.nil ++ rest) = '}' :: rest :=
          skipWs_not_ws _ ((by decide : isJsonWs '\x7d' = false))
        simp only [parseMembers, eq_self_iff_true, if_true, hstr, hsk0, hskv, h1, hsk, hmk]
      | cons k2 v2 tl2 =>
        rw [wfO, Bool.and_eq_true] at hwfo
        rw [sizeO] at hs
        have hsk : skipWs (dumpsObjTail ea (JsonObj.cons k2 v2 tl2) ++ rest)
            = ',' :: ' ' :: (escString ea k2
              ++ ':' :: ' ' :: (dumpsJ ea v2 ++ (dumpsObjTail ea tl2 ++ rest))) := by
          rw [show dumpsObjTail ea (JsonObj.cons k2 v2 tl2) ++ rest
              = ',' :: ' ' :: (escString ea k2
                ++ ':' :: ' ' :: (dumpsJ ea v2 ++ (dumpsObjTail ea tl2 ++ rest))) by
            rw [dumpsObjTail]
            simp]
          exact skipWs_not_ws _ ((by decide : isJsonWs ',' = false))
        have hsk3 : skipWs (' ' :: (escString ea k2
            ++ ':' :: ' ' :: (dumpsJ ea v2 ++ (dumpsObjTail ea tl2 ++ rest))))
            = escString ea k2
              ++ ':' :: ' ' :: (dumpsJ ea v2 ++ (dumpsObjTail ea tl2 ++ rest)) := by
          rw [skipWs_cons_ws]
          apply skipWs_not_ws
          rw [escString]
          exact (by decide : isJsonWs '"' = false)
        have h2 := ihM k2 v2 tl2 rest hwfo.1 hwfo.2
          (by have := sizeJ_pos v; omega) hrest
        simp only [parseMembers, eq_self_iff_true, if_true, hstr, hsk0, hskv, h1, hsk,
          hsk3, h2, hmk]

/-- `json.loads` recovers every well-formed value `json.dumps` produced,
a trailing newline included (the shape of a JSON-Lines line). -/
theorem jsonLoads_dumps (ea : Bool) (v : Json) (h : wfJ v = true) :
    jsonLoads (jsonDumps ea v ++ "\x0a") = some v := by
  rw [jsonLoads]
  have hdata : (jsonDumps ea v ++ "\x0a").data = dumpsJ ea v ++ ['\x0a'] := by
    rw [String.data_append]
    rfl
  have hlen : (jsonDumps ea v ++ "\x0a").length = (dumpsJ ea v).length + 1 := by
    have : (jsonDumps ea v ++ "\x0a").length = (jsonDumps ea v ++ "\x0a").data.length := rfl
    rw [this, hdata]
    simp
  rw [hdata, hlen]
  rw [skipWs_not_ws _ (by
    have hh := dumpsJ_append_head ea v ['\x0a']
    rcases hd2 : dumpsJ ea v ++ ['\x0a'] with _ | ⟨c0, cs0⟩
    · rw [hd2] at hh
      exact hh.elim
    · rw [hd2] at hh
      exact hh.1)]
  have hsz : sizeJ v ≤ (dumpsJ ea v).length + 1 + 1 := by
    have := sizeJ_le_len ea v
    omega
  rw [(parse_dumps ea ((dumpsJ ea v).length + 1 + 1)).1 v ['\x0a'] h hsz
    ((by decide : ('\x0a' : Char).isDigit = false))]
  show (if skipWs ['\x0a'] = [] then some v else none) = some v
  rw [show skipWs ['\x0a'] = [] from rfl]
  rfl

theorem textLinesBody_id : ∀ lines : List String,
    textLinesBody false false lines = lines := by
  intro lines
  induction lines with
  | nil => rfl
  | cons t rest ih => simp [textLinesBody, ih]

theorem encode_json_lines_noskip (ea : Bool) : ∀ structs : List Json,
    encode_json_lines false ea structs = structs.map (jsonDumps ea) := by
  intro structs
  induction structs with
  | nil => rfl
  | cons s rest ih => simp [encode_json_lines, ih]

theorem jlLoop_dumps (ea ig sil : Bool) : ∀ (structs : List Json) (num : Nat),
    structs.all wfJ = true →
    jlLoop false ig sil num (structs.map (fun s => jsonDumps ea s ++ "\x0a"))
      = ⟨structs, [], none⟩ := by
  intro structs
  induction structs with
  | nil => intro num _; rfl
  | cons s rest ih =>
    intro num hwf
    rw [List.all_cons, Bool.and_eq_true] at hwf
    simp only [List.map_cons, jlLoop, jsonLoads_dumps ea s hwf.1]
    rw [if_neg (by simp)]
    rw [ih (num + 1) hwf.2]
    rfl

/-- C6: writing any finite sequence of well-formed records with the
JSON-Lines writer (`skip_empty` off) and reading the file back with the
JSON-Lines reader (matching skip policy, i.e. `skip_empty` off — the
written data is arbitrary) yields the original sequence, for either
`ensure_ascii` setting, any error policy, and any path.  The file is
the written lines each followed by a newline, which is how the reader's
line iteration hands them back. -/
theorem json_lines_round_trip (p : String) (ea ig sil : Bool) (structs : List Json)
    (hwf : structs.all wfJ = true) :
    read_json_lines p true true false ig sil
        ((write_json_lines false ea structs).map (fun t => t ++ "\x0a"))
      = ⟨structs, [], none⟩ := by
  rw [read_json_lines]
  rw [write_json_lines, write_text_lines, textLinesBody_id, encode_json_lines_noskip]
  rw [show read_text_lines p true true false false
        ((structs.map (jsonDumps ea)).map (fun t => t ++ "\x0a"))
      = ⟨textLinesBody false false ((structs.map (jsonDumps ea)).map (fun t => t ++ "\x0a")),
         [], none⟩ from rfl]
  rw [textLinesBody_id]
  show jlLoop false ig sil 0 ((structs.map (jsonDumps ea)).map (fun t => t ++ "\x0a"))
    = ⟨structs, [], none⟩
  rw [List.map_map]
  exact jlLoop_dumps ea ig sil structs 0 hwf

theorem json_lines_round_trip_witness :
    ([Json.obj (JsonObj.cons "a" (Json.num 1) JsonObj.nil),
      Json.arr (JsonList.cons (Json.num 1) (JsonList.cons Json.null JsonList.nil)),
      Json.str "héllo"].all wfJ = true)
      ∧ read_json_lines "p" true true false false false
          ((write_json_lines false true
              [Json.obj (JsonObj.cons "a" (Json.num 1) JsonObj.nil),
               Json.arr (JsonList.cons (Json.num 1) (JsonList.cons Json.null JsonList.nil)),
               Json.str "héllo"]).map (fun t => t ++ "\x0a"))
        = ⟨[Json.obj (JsonObj.cons "a" (Json.num 1) JsonObj.nil),
            Json.arr (JsonList.cons (Json.num 1) (JsonList.cons Json.null JsonList.nil)),
            Json.str "héllo"], [], none⟩ :=
  ⟨rfl, json_lines_round_trip "p" true false false _ rfl⟩
